import Mathlib

/-!
Shallow embedding of src/schedule.py, a retro terminal day-planner.

The source is a single Python file.  We embed its pure core: the time-to-slot
mapping (get_current_slot, get_elapsed_time), the task store and the two slot
toggles (the Space and R branches of handle_edit_input), the edit-mode input
state machine (handle_edit_input), the per-slot glyph rule of format_slot_bar,
and the run-mode tick/alert/termination logic of main's loop.

Python lists become Lean lists (list.remove is List.erase: first occurrence;
list.append is appending at the end).  Python ints become Int (cursor fields,
key codes, slot indices) or Nat (clock fields, which datetime keeps in range).
The wall clock, read via datetime.now() in the source, is passed explicitly
as a Time value.
-/

namespace Schedule

/-- Hour and minute of a wall-clock reading (datetime.now() in the source).
datetime guarantees hour < 24 and minute < 60; theorems take what they need
of that as hypotheses. -/
structure Time where
  hour : Nat
  minute : Nat
deriving DecidableEq, Repr

/-- START_HOUR = 8 (08:00). -/
def START_HOUR : Nat := 8

/-- END_HOUR = 21 (21:00). -/
def END_HOUR : Nat := 21

/-- TOTAL_SLOTS = (END_HOUR - START_HOUR) * 2 = 26 half-hour slots. -/
def TOTAL_SLOTS : Nat := (END_HOUR - START_HOUR) * 2

/-- MAX_TASKS = 5. -/
def MAX_TASKS : Nat := 5

/-- Glyph for an empty (future) slot. -/
def EMPTY : Char := '▢'

/-- Glyph for the current slot. -/
def CURRENT : Char := '▣'

/-- Glyph for a past (filled) slot. -/
def FILLED : Char := '■'

/-- Glyph for a rest slot. -/
def REST : Char := '▨'

/-- get_current_slot: -1 when the hour is outside [START_HOUR, END_HOUR),
otherwise minutes since 08:00 integer-divided by 30. -/
def get_current_slot (now : Time) : Int :=
  if now.hour < START_HOUR ∨ now.hour ≥ END_HOUR then -1
  else (((now.hour - START_HOUR) * 60 + now.minute) / 30 : Nat)

/-- get_elapsed_time: (0,0) before START_HOUR, otherwise
(minutes_from_start // 60, ((minutes_from_start % 60) // 30) * 3). -/
def get_elapsed_time (now : Time) : Nat × Nat :=
  if now.hour < START_HOUR then (0, 0)
  else
    let minutes_from_start := (now.hour - START_HOUR) * 60 + now.minute
    (minutes_from_start / 60, ((minutes_from_start % 60) / 30) * 3)

/-- A Task: a name (the string is held as its list of key codes) and two
lists of slot indices, work (field name slots, as in the source) and rest. -/
structure Task where
  name : List Int
  slots : List Int
  rest_slots : List Int
deriving DecidableEq, Repr

instance : Inhabited Task := ⟨⟨[], [], []⟩⟩

/-- The two values of state.mode: the strings 'edit' and 'run'. -/
inductive Mode where
  | edit
  | run
deriving DecidableEq, Repr

/-- The two values of state.edit_focus: the strings 'name' and 'slots'. -/
inductive Focus where
  | name
  | slots
deriving DecidableEq, Repr

/-- AppState, with tasks a list of MAX_TASKS Task records. -/
structure AppState where
  tasks : List Task
  cursor_row : Int
  cursor_col : Int
  mode : Mode
  edit_focus : Focus
deriving DecidableEq, Repr

/-- The state AppState() builds in __post_init__: MAX_TASKS empty tasks,
cursor at (0,0), edit mode, name focus. -/
def initState : AppState :=
  ⟨List.replicate MAX_TASKS default, 0, 0, Mode.edit, Focus.name⟩

/- curses key codes used by the source (curses module constants). -/

/-- curses.KEY_UP. -/
def KEY_UP : Int := 259

/-- curses.KEY_DOWN. -/
def KEY_DOWN : Int := 258

/-- curses.KEY_LEFT. -/
def KEY_LEFT : Int := 260

/-- curses.KEY_RIGHT. -/
def KEY_RIGHT : Int := 261

/-- curses.KEY_BACKSPACE. -/
def KEY_BACKSPACE : Int := 263

/-- curses.KEY_ENTER. -/
def KEY_ENTER : Int := 343

/-- curses.KEY_F5. -/
def KEY_F5 : Int := 269

/-- The Space branch of handle_edit_input (key == ord(' ')): if col is in
slots remove it; elif col is in rest_slots move it from rest to work;
else append it to slots. -/
def toggle_work (col : Int) (t : Task) : Task :=
  if col ∈ t.slots then
    { t with slots := t.slots.erase col }
  else if col ∈ t.rest_slots then
    { t with rest_slots := t.rest_slots.erase col, slots := t.slots ++ [col] }
  else
    { t with slots := t.slots ++ [col] }

/-- The R branch of handle_edit_input (key == ord('r') or ord('R')):
symmetric to toggle_work. -/
def toggle_rest (col : Int) (t : Task) : Task :=
  if col ∈ t.rest_slots then
    { t with rest_slots := t.rest_slots.erase col }
  else if col ∈ t.slots then
    { t with slots := t.slots.erase col, rest_slots := t.rest_slots ++ [col] }
  else
    { t with rest_slots := t.rest_slots ++ [col] }

/-- Apply f to the element at index i, leaving the rest unchanged (the
Python pattern task = state.tasks[cursor_row]; mutate task in place). -/
def modifyAt (f : Task → Task) : Nat → List Task → List Task
  | _, [] => []
  | 0, t :: ts => f t :: ts
  | n + 1, t :: ts => t :: modifyAt f n ts

/-- state.tasks[state.cursor_row] mutated in place by f. -/
def mutateCurTask (s : AppState) (f : Task → Task) : AppState :=
  { s with tasks := modifyAt f s.cursor_row.toNat s.tasks }

/-- handle_edit_input: the edit-mode key dispatch.  Returns the new state
and the begin-run signal (True only for F5).  ord-codes: Tab 9, newline 10,
CR 13, DEL 127, BS 8, Space 32, r 114, R 82; printable is 32..126. -/
def handle_edit_input (state : AppState) (key : Int) : AppState × Bool :=
  if key = KEY_F5 then
    (state, true)
  else if key = 9 then
    ({ state with
       edit_focus := if state.edit_focus = Focus.name then Focus.slots else Focus.name },
     false)
  else if key = KEY_UP then
    ({ state with cursor_row := max 0 (state.cursor_row - 1) }, false)
  else if key = KEY_DOWN then
    ({ state with cursor_row := min ((MAX_TASKS : Int) - 1) (state.cursor_row + 1) }, false)
  else if state.edit_focus = Focus.name then
    if key = 10 ∨ key = KEY_ENTER ∨ key = 13 then
      ({ state with cursor_row := min ((MAX_TASKS : Int) - 1) (state.cursor_row + 1) }, false)
    else if key = KEY_BACKSPACE ∨ key = 127 ∨ key = 8 then
      (mutateCurTask state (fun t => { t with name := t.name.dropLast }), false)
    else if 32 ≤ key ∧ key ≤ 126 then
      (mutateCurTask state (fun t =>
        if t.name.length < 15 then { t with name := t.name ++ [key] } else t), false)
    else
      (state, false)
  else
    if key = KEY_LEFT then
      ({ state with cursor_col := max 0 (state.cursor_col - 1) }, false)
    else if key = KEY_RIGHT then
      ({ state with cursor_col := min ((TOTAL_SLOTS : Int) - 1) (state.cursor_col + 1) }, false)
    else if key = 32 then
      (mutateCurTask state (toggle_work state.cursor_col), false)
    else if key = 114 ∨ key = 82 then
      (mutateCurTask state (toggle_rest state.cursor_col), false)
    else
      (state, false)

/-- Feed a sequence of keys through handle_edit_input, keeping the state. -/
def processKeys (s : AppState) : List Int → AppState
  | [] => s
  | k :: ks => processKeys (handle_edit_input s k).1 ks

/-- The per-slot glyph rule of format_slot_bar: rest glyph for a rest slot;
for a work slot, filled/current/empty against current_slot while running and
empty while editing; blank otherwise. -/
def slotChar (slots rest_slots : List Int) (current_slot : Int)
    (is_running : Bool) (i : Int) : Char :=
  if i ∈ rest_slots then REST
  else if i ∈ slots then
    if is_running then
      if i < current_slot then FILLED
      else if i = current_slot then CURRENT
      else EMPTY
    else EMPTY
  else ' '

/-- format_slot_bar as a character list: each slot is its glyph twice, with
a dot separator after every slot but the last. -/
def format_slot_bar (slots rest_slots : List Int) (current_slot : Int)
    (is_running : Bool) : List Char :=
  (List.range TOTAL_SLOTS).flatMap (fun i =>
    let c := slotChar slots rest_slots current_slot is_running (i : Int)
    [c, c] ++ (if i < TOTAL_SLOTS - 1 then ['.'] else []))

/-- One run-mode iteration of main's loop after the render (the body of
if state.mode == 'run'): the per-minute beep test, then the end-of-day test.
Returns (beeps emitted this iteration, updated last_minute, terminate?). -/
def runStep (last_minute : Int) (now : Time) : Nat × Int × Bool :=
  let current_slot := get_current_slot now
  let minuteBeeps : Nat := if (now.minute : Int) ≠ last_minute then 1 else 0
  let newLast : Int := if (now.minute : Int) ≠ last_minute then (now.minute : Int) else last_minute
  let dayEnd : Bool := current_slot = -1 ∨ current_slot ≥ (TOTAL_SLOTS : Int)
  (minuteBeeps + (if dayEnd then 5 else 0), newLast, dayEnd)

/-- main's while-loop restricted to run mode, driven by the sequence of
wall-clock readings observed at successive wakeups (each iteration renders
once before the checks; a getch timeout continues the loop).  Returns
(number of renders, total beeps); iteration stops at the break. -/
def runLoop (last_minute : Int) : List Time → Nat × Nat
  | [] => (0, 0)
  | t :: ts =>
    let step := runStep last_minute t
    if step.2.2 then (1, step.1)
    else
      let rest := runLoop step.2.1 ts
      (rest.1 + 1, step.1 + rest.2)

/-- Claim C2: get_current_slot is -1 when the hour is < 8 or ≥ 21; otherwise
it is the minutes since 08:00 divided by 30, lying in [0, 26); it is 0 at
exactly 08:00 and 25 throughout [20:30, 21:00). -/
theorem C2_current_slot (now : Time) (hm : now.minute < 60) :
    ((now.hour < 8 ∨ 21 ≤ now.hour) → get_current_slot now = -1) ∧
    (8 ≤ now.hour → now.hour < 21 →
      get_current_slot now = (((now.hour - 8) * 60 + now.minute) / 30 : Nat) ∧
      0 ≤ get_current_slot now ∧ get_current_slot now < 26) ∧
    (now.hour = 8 → now.minute = 0 → get_current_slot now = 0) ∧
    (now.hour = 20 → 30 ≤ now.minute → get_current_slot now = 25) := by
  unfold get_current_slot START_HOUR END_HOUR
  refine ⟨fun h => by rw [if_pos]; omega, fun h1 h2 => ?_, fun h1 h2 => ?_, fun h1 h2 => ?_⟩
  · rw [if_neg (by omega)]
    refine ⟨rfl, Int.ofNat_nonneg _, ?_⟩
    have hlt : ((now.hour - 8) * 60 + now.minute) / 30 < 26 := by omega
    exact_mod_cast hlt
  · rw [if_neg (by omega), h1, h2]; decide
  · rw [if_neg (by omega), h1]
    have h25 : ((20 - 8) * 60 + now.minute) / 30 = 25 := by omega
    rw [h25]; decide

/-- Witness for C2 at 20:45: the slot is 25. -/
theorem C2_current_slot_witness : get_current_slot ⟨20, 45⟩ = 25 :=
  (C2_current_slot ⟨20, 45⟩ (by decide)).2.2.2 rfl (by decide)

/-- Claim C8: get_elapsed_time is (0,0) before 08:00; otherwise the hours
component is floor(minutes since 08:00 / 60) (equal to hour - 8, so it keeps
growing at and after 21:00) and the tick is 3 when the minute is ≥ 30 and 0
otherwise; in particular it is (1,3) throughout [09:30, 10:00). -/
theorem C8_elapsed_display (now : Time) (hm : now.minute < 60) :
    (now.hour < 8 → get_elapsed_time now = (0, 0)) ∧
    (8 ≤ now.hour →
      get_elapsed_time now =
        (((now.hour - 8) * 60 + now.minute) / 60,
         if 30 ≤ now.minute then 3 else 0) ∧
      (get_elapsed_time now).1 = now.hour - 8) ∧
    (now.hour = 9 → 30 ≤ now.minute → get_elapsed_time now = (1, 3)) := by
  unfold get_elapsed_time START_HOUR
  refine ⟨fun h => by rw [if_pos h], fun h => ?_, fun h1 h2 => ?_⟩
  · rw [if_neg (by omega)]
    have hmod : ((now.hour - 8) * 60 + now.minute) % 60 = now.minute := by omega
    have hdiv : ((now.hour - 8) * 60 + now.minute) / 60 = now.hour - 8 := by omega
    have htick : now.minute / 30 * 3 = if 30 ≤ now.minute then 3 else 0 := by
      rcases Nat.lt_or_ge now.minute 30 with h30 | h30
      · have h0 : now.minute / 30 = 0 := by omega
        rw [h0, if_neg (by omega)]
      · have h1 : now.minute / 30 = 1 := by omega
        rw [h1, if_pos h30]
    refine ⟨?_, ?_⟩ <;> simp [hmod, htick, hdiv]
  · rw [if_neg (by omega), h1]
    have hdiv : ((9 - 8) * 60 + now.minute) / 60 = 1 := by omega
    have hmod : (((9 - 8) * 60 + now.minute) % 60) / 30 * 3 = 3 := by omega
    simp only [hdiv, hmod]

/-- Witness for C8 at 09:45: the display is (1,3). -/
theorem C8_elapsed_display_witness : get_elapsed_time ⟨9, 45⟩ = (1, 3) :=
  (C8_elapsed_display ⟨9, 45⟩ (by decide)).2.2 rfl (by decide)

/-- Claim C10: for any valid wall-clock reading, get_current_slot is below
TOTAL_SLOTS, so the run loop's test current_slot ≥ TOTAL_SLOTS can never
fire on its own and day end after 21:00 is detected only through -1. -/
theorem C10_slot_below_total (now : Time) (hm : now.minute < 60) :
    get_current_slot now < (TOTAL_SLOTS : Int) ∧
    ((get_current_slot now = -1 ∨ get_current_slot now ≥ (TOTAL_SLOTS : Int)) ↔
      get_current_slot now = -1) := by
  have hlt : get_current_slot now < (TOTAL_SLOTS : Int) := by
    unfold get_current_slot START_HOUR END_HOUR TOTAL_SLOTS
    split
    · omega
    · rename_i h
      have hub : ((now.hour - 8) * 60 + now.minute) / 30 < 26 := by omega
      exact_mod_cast hub
  refine ⟨hlt, ⟨fun h => ?_, Or.inl⟩⟩
  rcases h with h | h
  · exact h
  · omega

/-- Witness for C10 at 12:00: the slot value 8 is below 26. -/
theorem C10_slot_below_total_witness : get_current_slot ⟨12, 0⟩ < (TOTAL_SLOTS : Int) :=
  (C10_slot_below_total ⟨12, 0⟩ (by decide)).1

/-- Counterexample to claim C3 as stated: on the terminating iteration the
per-minute beep also fires when the observed minute differs from the
last-alerted minute (which is -1 right after entering run mode), so the
iteration that observes day end emits 6 alerts, not exactly 5. -/
theorem C3_counterexample :
    runLoop (-1) [Time.mk 21 0] = (1, 6) ∧ (runLoop (-1) [Time.mk 21 0]).2 ≠ 5 := by
  decide

/-- Claim C3 as amended: on the iteration observing current_slot = -1 or
current_slot ≥ TOTAL_SLOTS, the loop emits the 5 end-of-day alerts preceded
by one per-minute alert when the minute differs from last_minute, then
terminates: exactly one render happens and no later wakeup is processed. -/
theorem C3_day_end_terminates (lm : Int) (t : Time) (ts : List Time)
    (h : get_current_slot t = -1 ∨ get_current_slot t ≥ (TOTAL_SLOTS : Int)) :
    runLoop lm (t :: ts) =
      (1, (if (t.minute : Int) ≠ lm then 1 else 0) + 5) := by
  unfold runLoop runStep
  simp only [ge_iff_le] at h
  have hd : (decide (get_current_slot t = -1 ∨ get_current_slot t ≥ (TOTAL_SLOTS : Int))) = true := by
    simpa using h
  simp only [ge_iff_le] at hd
  simp [hd]

/-- Witness for C3: entering run mode at 21:00 with last_minute = -1 gives
one render and 6 beeps, whatever later wakeups would have followed. -/
theorem C3_day_end_terminates_witness :
    runLoop (-1) [Time.mk 21 0, Time.mk 21 5] = (1, 6) := by
  have h := C3_day_end_terminates (-1) (Time.mk 21 0) [Time.mk 21 5] (by decide)
  simpa using h

/-- toggle_work when the slot is already a work slot: it is erased. -/
theorem toggle_work_slots_of_mem (t : Task) (s : Int) (h : s ∈ t.slots) :
    (toggle_work s t).slots = t.slots.erase s := by
  unfold toggle_work
  rw [if_pos h]

/-- toggle_work when the slot is not a work slot: it is appended, whether
or not it was a rest slot. -/
theorem toggle_work_slots_of_not_mem (t : Task) (s : Int) (h : s ∉ t.slots) :
    (toggle_work s t).slots = t.slots ++ [s] := by
  unfold toggle_work
  rw [if_neg h]
  split_ifs <;> rfl

/-- Claim C1: starting from a task whose work and rest lists are
duplicate-free and disjoint, both toggle_work and toggle_rest keep the work
and rest sets disjoint, and toggling one kind on a slot holding the other
kind first removes the other kind. -/
theorem C1_toggle_preserves_disjoint (t : Task) (s : Int)
    (hw : t.slots.Nodup) (hr : t.rest_slots.Nodup)
    (hd : ∀ x, x ∈ t.slots → x ∉ t.rest_slots) :
    (∀ x, x ∈ (toggle_work s t).slots → x ∉ (toggle_work s t).rest_slots) ∧
    (∀ x, x ∈ (toggle_rest s t).slots → x ∉ (toggle_rest s t).rest_slots) ∧
    (s ∈ t.rest_slots → s ∉ (toggle_work s t).rest_slots) ∧
    (s ∈ t.slots → s ∉ (toggle_rest s t).slots) := by
  unfold toggle_work toggle_rest
  refine ⟨?_, ?_, ?_, ?_⟩
  · split_ifs with h1 h2
    · intro x hx
      exact hd x (List.mem_of_mem_erase hx)
    · intro x hx
      rcases List.mem_append.mp hx with h | h
      · exact fun hc => hd x h (List.mem_of_mem_erase hc)
      · have hxs : x = s := by simpa using h
        rw [hxs]
        exact hr.not_mem_erase
    · intro x hx
      rcases List.mem_append.mp hx with h | h
      · exact hd x h
      · have hxs : x = s := by simpa using h
        rw [hxs]
        exact h2
  · split_ifs with h1 h2
    · intro x hx hc
      exact hd x hx (List.mem_of_mem_erase hc)
    · intro x hx hc
      rcases List.mem_append.mp hc with h | h
      · exact hd x (List.mem_of_mem_erase hx) h
      · have hxs : x = s := by simpa using h
        rw [hxs] at hx
        exact hw.not_mem_erase hx
    · intro x hx hc
      rcases List.mem_append.mp hc with h | h
      · exact hd x hx h
      · have hxs : x = s := by simpa using h
        rw [hxs] at hx
        exact h2 hx
  · intro hs
    rw [if_neg (fun hc => hd s hc hs), if_pos hs]
    exact hr.not_mem_erase
  · intro hs
    rw [if_neg (hd s hs), if_pos hs]
    exact hw.not_mem_erase

/-- Witness for C1: a task with work slot 0 and rest slot 1; toggling work
on slot 1 removes it from the rest slots. -/
theorem C1_toggle_preserves_disjoint_witness :
    (1 : Int) ∈ (Task.mk [] [0] [1]).rest_slots ∧
    (1 : Int) ∉ (toggle_work 1 (Task.mk [] [0] [1])).rest_slots :=
  ⟨by decide,
   (C1_toggle_preserves_disjoint (Task.mk [] [0] [1]) 1 (by decide) (by decide)
      (by intro x hx hy; simp at hx hy; omega)).2.2.1 (by decide)⟩

/-- Claim C4: applying toggle_work twice with the same slot returns the work
set to its value before the first call, as a set of indices, including the
cross-move case where the slot started in rest_slots. -/
theorem C4_toggle_work_twice (t : Task) (s : Int) (hw : t.slots.Nodup) :
    ∀ x, x ∈ (toggle_work s (toggle_work s t)).slots ↔ x ∈ t.slots := by
  intro x
  by_cases h1 : s ∈ t.slots
  · have e1 := toggle_work_slots_of_mem t s h1
    have hns : s ∉ (toggle_work s t).slots := by
      rw [e1]
      exact hw.not_mem_erase
    have e2 := toggle_work_slots_of_not_mem (toggle_work s t) s hns
    rw [e2, e1, List.mem_append, hw.mem_erase_iff]
    constructor
    · rintro (⟨hne, hmem⟩ | hxs)
      · exact hmem
      · have hx : x = s := by simpa using hxs
        rw [hx]
        exact h1
    · intro hmem
      by_cases hxs : x = s
      · exact Or.inr (by simp [hxs])
      · exact Or.inl ⟨hxs, hmem⟩
  · have e1 := toggle_work_slots_of_not_mem t s h1
    have hs2 : s ∈ (toggle_work s t).slots := by
      rw [e1]
      simp
    have e2 := toggle_work_slots_of_mem (toggle_work s t) s hs2
    rw [e2, e1, List.erase_append_right _ h1]
    simp

/-- Witness for C4: slot 3 starts as a rest slot; toggle_work moves it to
work, a second toggle_work removes it, so the work set is back to empty. -/
theorem C4_toggle_work_twice_witness :
    (3 : Int) ∉ (toggle_work 3 (toggle_work 3 (Task.mk [] [] [3]))).slots :=
  fun h => by simpa using (C4_toggle_work_twice (Task.mk [] [] [3]) 3 (by decide) 3).mp h

/-- Arrow-up decrements the cursor row, saturating at 0, in either focus. -/
theorem handle_up (s : AppState) :
    handle_edit_input s KEY_UP = ({ s with cursor_row := max 0 (s.cursor_row - 1) }, false) := by
  unfold handle_edit_input KEY_UP KEY_F5
  norm_num

/-- Arrow-down increments the cursor row, saturating at MAX_TASKS - 1. -/
theorem handle_down (s : AppState) :
    handle_edit_input s KEY_DOWN =
      ({ s with cursor_row := min ((MAX_TASKS : Int) - 1) (s.cursor_row + 1) }, false) := by
  unfold handle_edit_input KEY_DOWN KEY_F5 KEY_UP
  norm_num

/-- Arrow-left decrements the cursor column, saturating at 0, in slots
focus; in name focus it is ignored. -/
theorem handle_left (s : AppState) :
    handle_edit_input s KEY_LEFT =
      (if s.edit_focus = Focus.name then s
       else { s with cursor_col := max 0 (s.cursor_col - 1) }, false) := by
  unfold handle_edit_input KEY_LEFT KEY_F5 KEY_UP KEY_DOWN KEY_ENTER KEY_BACKSPACE
  cases hf : s.edit_focus <;> simp [hf]

/-- Arrow-right increments the cursor column, saturating at TOTAL_SLOTS - 1,
in slots focus; in name focus it is ignored. -/
theorem handle_right (s : AppState) :
    handle_edit_input s KEY_RIGHT =
      (if s.edit_focus = Focus.name then s
       else { s with cursor_col := min ((TOTAL_SLOTS : Int) - 1) (s.cursor_col + 1) }, false) := by
  unfold handle_edit_input KEY_RIGHT KEY_F5 KEY_UP KEY_DOWN KEY_ENTER KEY_BACKSPACE KEY_LEFT
  cases hf : s.edit_focus <;> simp [hf]

/-- One arrow key keeps the cursor inside [0,4] × [0,25]. -/
theorem arrow_step_bounds (s : AppState) (k : Int)
    (hk : k = KEY_UP ∨ k = KEY_DOWN ∨ k = KEY_LEFT ∨ k = KEY_RIGHT)
    (hrow : 0 ≤ s.cursor_row ∧ s.cursor_row ≤ 4)
    (hcol : 0 ≤ s.cursor_col ∧ s.cursor_col ≤ 25) :
    (0 ≤ (handle_edit_input s k).1.cursor_row ∧ (handle_edit_input s k).1.cursor_row ≤ 4) ∧
    (0 ≤ (handle_edit_input s k).1.cursor_col ∧ (handle_edit_input s k).1.cursor_col ≤ 25) := by
  rcases hk with h | h | h | h <;> subst h
  · rw [handle_up]
    constructor
    · (dsimp only; omega)
    · exact hcol
  · rw [handle_down]
    constructor
    · unfold MAX_TASKS
      (dsimp only; omega)
    · exact hcol
  · rw [handle_left]
    split
    · exact ⟨hrow, hcol⟩
    · constructor
      · exact hrow
      · (dsimp only; omega)
  · rw [handle_right]
    split
    · exact ⟨hrow, hcol⟩
    · constructor
      · exact hrow
      · unfold TOTAL_SLOTS END_HOUR START_HOUR
        (dsimp only; omega)

/-- Any sequence of arrow keys keeps the cursor inside [0,4] × [0,25]. -/
theorem arrow_keys_bounds (ks : List Int) :
    ∀ s : AppState,
      (∀ k ∈ ks, k = KEY_UP ∨ k = KEY_DOWN ∨ k = KEY_LEFT ∨ k = KEY_RIGHT) →
      0 ≤ s.cursor_row → s.cursor_row ≤ 4 → 0 ≤ s.cursor_col → s.cursor_col ≤ 25 →
      (0 ≤ (processKeys s ks).cursor_row ∧ (processKeys s ks).cursor_row ≤ 4) ∧
      (0 ≤ (processKeys s ks).cursor_col ∧ (processKeys s ks).cursor_col ≤ 25) := by
  induction ks with
  | nil => exact fun s _ h1 h2 h3 h4 => ⟨⟨h1, h2⟩, h3, h4⟩
  | cons k ks ih =>
    intro s hks h1 h2 h3 h4
    have hstep := arrow_step_bounds s k (hks k (by simp)) ⟨h1, h2⟩ ⟨h3, h4⟩
    exact ih _ (fun k2 h2 => hks k2 (by simp [h2])) hstep.1.1 hstep.1.2 hstep.2.1 hstep.2.2

/-- Claim C5: from any cursor inside [0,4] × [0,25], every sequence of
Up/Down/Left/Right events keeps cursor_row in [0,4] and cursor_col in
[0,25]; at the boundaries the four keys saturate instead of wrapping. -/
theorem C5_cursor_bounds (s : AppState) (ks : List Int)
    (hks : ∀ k ∈ ks, k = KEY_UP ∨ k = KEY_DOWN ∨ k = KEY_LEFT ∨ k = KEY_RIGHT)
    (hrow : 0 ≤ s.cursor_row ∧ s.cursor_row ≤ 4)
    (hcol : 0 ≤ s.cursor_col ∧ s.cursor_col ≤ 25) :
    ((0 ≤ (processKeys s ks).cursor_row ∧ (processKeys s ks).cursor_row ≤ 4) ∧
     (0 ≤ (processKeys s ks).cursor_col ∧ (processKeys s ks).cursor_col ≤ 25)) ∧
    (s.cursor_row = 0 → (handle_edit_input s KEY_UP).1.cursor_row = 0) ∧
    (s.cursor_row = 4 → (handle_edit_input s KEY_DOWN).1.cursor_row = 4) ∧
    (s.cursor_col = 0 → (handle_edit_input s KEY_LEFT).1.cursor_col = 0) ∧
    (s.cursor_col = 25 → (handle_edit_input s KEY_RIGHT).1.cursor_col = 25) := by
  refine ⟨arrow_keys_bounds ks s hks hrow.1 hrow.2 hcol.1 hcol.2, ?_, ?_, ?_, ?_⟩
  · intro h0
    rw [handle_up]
    simp [h0]
  · intro h4
    rw [handle_down]
    unfold MAX_TASKS
    simp [h4]
  · intro h0
    rw [handle_left]
    split <;> simp [h0]
  · intro h25
    rw [handle_right]
    unfold TOTAL_SLOTS END_HOUR START_HOUR
    split <;> simp [h25]

/-- Witness for C5: from the initial state, pressing Up twice then Left
leaves the cursor at a row in [0,4] and a column in [0,25]. -/
theorem C5_cursor_bounds_witness :
    0 ≤ (processKeys initState [KEY_UP, KEY_UP, KEY_LEFT]).cursor_row ∧
    (processKeys initState [KEY_UP, KEY_UP, KEY_LEFT]).cursor_row ≤ 4 ∧
    0 ≤ (processKeys initState [KEY_UP, KEY_UP, KEY_LEFT]).cursor_col ∧
    (processKeys initState [KEY_UP, KEY_UP, KEY_LEFT]).cursor_col ≤ 25 := by
  have h := C5_cursor_bounds initState [KEY_UP, KEY_UP, KEY_LEFT]
    (by decide) (by decide) (by decide)
  exact ⟨h.1.1.1, h.1.1.2, h.1.2.1, h.1.2.2⟩

/-- Claim C7: the per-slot glyph is the rest glyph whenever the slot is a
rest slot; for a work slot it is filled/current/empty against current_slot
while running and empty while editing; an unmarked slot is blank, so a task
with no marked slots has a bar of blanks and separators only. -/
theorem C7_slot_glyphs (slots rest_slots : List Int) (current_slot : Int)
    (is_running : Bool) (i : Int) :
    (i ∈ rest_slots → slotChar slots rest_slots current_slot is_running i = REST) ∧
    (i ∉ rest_slots → i ∈ slots → is_running = true → i < current_slot →
      slotChar slots rest_slots current_slot is_running i = FILLED) ∧
    (i ∉ rest_slots → i ∈ slots → is_running = true → i = current_slot →
      slotChar slots rest_slots current_slot is_running i = CURRENT) ∧
    (i ∉ rest_slots → i ∈ slots → is_running = true → current_slot < i →
      slotChar slots rest_slots current_slot is_running i = EMPTY) ∧
    (i ∉ rest_slots → i ∈ slots → is_running = false →
      slotChar slots rest_slots current_slot is_running i = EMPTY) ∧
    (i ∉ rest_slots → i ∉ slots →
      slotChar slots rest_slots current_slot is_running i = ' ') ∧
    (∀ c ∈ format_slot_bar [] [] current_slot is_running, c = ' ' ∨ c = '.') := by
  refine ⟨?_, ?_, ?_, ?_, ?_, ?_, ?_⟩
  · intro h1
    simp [slotChar, h1]
  · intro h1 h2 hrun hlt
    simp [slotChar, h1, h2, hrun, hlt]
  · intro h1 h2 hrun heq
    subst heq
    simp [slotChar, h1, h2, hrun]
  · intro h1 h2 hrun hgt
    have hnlt : ¬ i < current_slot := by omega
    have hne : ¬ i = current_slot := by omega
    simp [slotChar, h1, h2, hrun, hnlt, hne]
  · intro h1 h2 hrun
    simp [slotChar, h1, h2, hrun]
  · intro h1 h2
    simp [slotChar, h1, h2]
  · intro c hc
    unfold format_slot_bar at hc
    rw [List.mem_flatMap] at hc
    obtain ⟨j, hj, hc⟩ := hc
    simp only [slotChar, List.not_mem_nil, if_false] at hc
    rcases List.mem_append.mp hc with h | h
    · left
      simpa using h
    · right
      split at h
      · simpa using h
      · simp at h

/-- Witness for C7: work slots {0,1,2} at current slot 1 while running show
filled, current, empty; an unmarked slot is blank; 08:45 maps to slot 1. -/
theorem C7_slot_glyphs_witness :
    get_current_slot ⟨8, 45⟩ = 1 ∧
    slotChar [0, 1, 2] [] 1 true 0 = FILLED ∧
    slotChar [0, 1, 2] [] 1 true 1 = CURRENT ∧
    slotChar [0, 1, 2] [] 1 true 2 = EMPTY ∧
    slotChar [] [] 1 true 7 = ' ' :=
  ⟨by decide,
   (C7_slot_glyphs [0, 1, 2] [] 1 true 0).2.1 (by decide) (by decide) rfl (by decide),
   (C7_slot_glyphs [0, 1, 2] [] 1 true 1).2.2.1 (by decide) (by decide) rfl rfl,
   (C7_slot_glyphs [0, 1, 2] [] 1 true 2).2.2.2.1 (by decide) (by decide) rfl (by decide),
   (C7_slot_glyphs [] [] 1 true 7).2.2.2.2.2.1 (by decide) (by decide)⟩

/-- The keys that edit the focused name: the backspace codes and the
printable range 32..126. -/
def nameEditKey (k : Int) : Prop :=
  k = KEY_BACKSPACE ∨ k = 127 ∨ k = 8 ∨ (32 ≤ k ∧ k ≤ 126)

/-- The effect of one name-editing key on the focused task, as written in
the two name-focus branches of handle_edit_input. -/
def nameStep (k : Int) (t : Task) : Task :=
  if k = KEY_BACKSPACE ∨ k = 127 ∨ k = 8 then
    { t with name := t.name.dropLast }
  else if t.name.length < 15 then { t with name := t.name ++ [k] } else t

/-- nameStep on a backspace code drops the last code of the name. -/
theorem nameStep_bs (k : Int) (hb : k = KEY_BACKSPACE ∨ k = 127 ∨ k = 8) :
    nameStep k = fun t => { t with name := t.name.dropLast } := by
  funext t
  unfold nameStep
  rw [if_pos hb]

/-- nameStep on any other key is the length-guarded append. -/
theorem nameStep_pr (k : Int) (hnb : ¬ (k = KEY_BACKSPACE ∨ k = 127 ∨ k = 8)) :
    nameStep k =
      fun t => if t.name.length < 15 then { t with name := t.name ++ [k] } else t := by
  funext t
  unfold nameStep
  rw [if_neg hnb]

/-- In name focus, a name-editing key goes through mutateCurTask with
nameStep and signals no run start. -/
theorem handle_name_key (s : AppState) (k : Int)
    (hf : s.edit_focus = Focus.name) (hk : nameEditKey k) :
    handle_edit_input s k = (mutateCurTask s (nameStep k), false) := by
  rcases hk with hb | hb | hb | hp
  · rw [nameStep_bs k (Or.inl hb)]
    subst hb
    simp [handle_edit_input, KEY_BACKSPACE, KEY_F5, KEY_UP, KEY_DOWN, KEY_ENTER, hf]
  · rw [nameStep_bs k (Or.inr (Or.inl hb))]
    subst hb
    simp [handle_edit_input, KEY_BACKSPACE, KEY_F5, KEY_UP, KEY_DOWN, KEY_ENTER, hf]
  · rw [nameStep_bs k (Or.inr (Or.inr hb))]
    subst hb
    simp [handle_edit_input, KEY_BACKSPACE, KEY_F5, KEY_UP, KEY_DOWN, KEY_ENTER, hf]
  · obtain ⟨hp1, hp2⟩ := hp
    have n1 : ¬ k = (269 : Int) := by omega
    have n2 : ¬ k = (9 : Int) := by omega
    have n3 : ¬ k = (259 : Int) := by omega
    have n4 : ¬ k = (258 : Int) := by omega
    have n5 : ¬ k = (10 : Int) := by omega
    have n6 : ¬ k = (343 : Int) := by omega
    have n7 : ¬ k = (13 : Int) := by omega
    have n8 : ¬ k = (263 : Int) := by omega
    have n9 : ¬ k = (127 : Int) := by omega
    have n10 : ¬ k = (8 : Int) := by omega
    rw [nameStep_pr k (by unfold KEY_BACKSPACE; omega)]
    simp [handle_edit_input, KEY_BACKSPACE, KEY_F5, KEY_UP, KEY_DOWN, KEY_ENTER,
          hf, n1, n2, n3, n4, n5, n6, n7, n8, n9, n10, hp1, hp2]

/-- modifyAt keeps the list length. -/
theorem length_modifyAt (f : Task → Task) (i : Nat) (ts : List Task) :
    (modifyAt f i ts).length = ts.length := by
  induction ts generalizing i with
  | nil => cases i <;> rfl
  | cons t ts ih =>
    cases i with
    | zero => rfl
    | succ n => simp [modifyAt, ih]

/-- modifyAt applies f at the modified index. -/
theorem getD_modifyAt (f : Task → Task) (i : Nat) (ts : List Task) (d : Task)
    (h : i < ts.length) :
    (modifyAt f i ts).getD i d = f (ts.getD i d) := by
  induction ts generalizing i with
  | nil => simp at h
  | cons t ts ih =>
    cases i with
    | zero => rfl
    | succ n => simpa [modifyAt] using ih n (by simpa using h)

/-- A property of tasks preserved by f holds everywhere after modifyAt. -/
theorem mem_modifyAt (f : Task → Task) (i : Nat) (ts : List Task)
    (p : Task → Prop) (hts : ∀ t ∈ ts, p t) (hf : ∀ t, p t → p (f t)) :
    ∀ t ∈ modifyAt f i ts, p t := by
  induction ts generalizing i with
  | nil =>
    intro t2 ht2
    cases i <;> simp [modifyAt] at ht2
  | cons t ts ih =>
    cases i with
    | zero =>
      intro t2 ht2
      simp only [modifyAt] at ht2
      rcases List.mem_cons.mp ht2 with h | h
      · rw [h]
        exact hf t (hts t (by simp))
      · exact hts t2 (by simp [h])
    | succ n =>
      intro t2 ht2
      simp only [modifyAt] at ht2
      rcases List.mem_cons.mp ht2 with h | h
      · rw [h]
        exact hts t (by simp)
      · exact ih n (fun t3 ht3 => hts t3 (List.mem_cons_of_mem _ ht3)) t2 h

/-- The name of the task under the cursor. -/
def nameAt (s : AppState) : List Int :=
  (s.tasks.getD s.cursor_row.toNat default).name

/-- nameAt after mutateCurTask is f applied to the focused task. -/
theorem nameAt_mutate (s : AppState) (f : Task → Task)
    (hrow : s.cursor_row.toNat < s.tasks.length) :
    nameAt (mutateCurTask s f) = (f (s.tasks.getD s.cursor_row.toNat default)).name := by
  unfold nameAt mutateCurTask
  dsimp only
  rw [getD_modifyAt _ _ _ _ hrow]

/-- nameStep never pushes a name beyond 15 codes. -/
theorem nameStep_len_le (k : Int) (t : Task) (h : t.name.length ≤ 15) :
    (nameStep k t).name.length ≤ 15 := by
  unfold nameStep
  split_ifs with h1 h2
  · dsimp only
    rw [List.length_dropLast]
    omega
  · dsimp only
    rw [List.length_append]
    simp only [List.length_singleton]
    omega
  · exact h

/-- Name lengths stay at most 15 under any sequence of name-editing keys. -/
theorem name_len_invariant (ks : List Int) :
    ∀ s : AppState, s.edit_focus = Focus.name → (∀ k ∈ ks, nameEditKey k) →
      (∀ t ∈ s.tasks, t.name.length ≤ 15) →
      ∀ t ∈ (processKeys s ks).tasks, t.name.length ≤ 15 := by
  induction ks with
  | nil => exact fun s _ _ h => h
  | cons k ks ih =>
    intro s hf hks hlen
    have hstep := handle_name_key s k hf (hks k (by simp))
    have hf2 : (handle_edit_input s k).1.edit_focus = Focus.name := by
      rw [hstep]
      exact hf
    have hlen2 : ∀ t ∈ (handle_edit_input s k).1.tasks, t.name.length ≤ 15 := by
      rw [hstep]
      exact mem_modifyAt _ _ _ _ hlen (nameStep_len_le k)
    exact ih _ hf2 (fun k2 h2 => hks k2 (by simp [h2])) hlen2

/-- Typing printable keys appends them to the focused name until it holds
15 codes, after which further keys are dropped. -/
theorem typing_appends (ks : List Int) :
    ∀ s : AppState, s.edit_focus = Focus.name →
      s.cursor_row.toNat < s.tasks.length →
      (∀ k ∈ ks, 32 ≤ k ∧ k ≤ 126) →
      (nameAt s).length ≤ 15 →
      nameAt (processKeys s ks) = nameAt s ++ ks.take (15 - (nameAt s).length) := by
  induction ks with
  | nil =>
    intro s _ _ _ _
    simp [processKeys]
  | cons k ks ih =>
    intro s hf hrow hks hlen
    have hk := hks k (by simp)
    have hnb : ¬ (k = KEY_BACKSPACE ∨ k = 127 ∨ k = 8) := by
      unfold KEY_BACKSPACE
      omega
    have hstep := handle_name_key s k hf (Or.inr (Or.inr (Or.inr hk)))
    have hf2 : (handle_edit_input s k).1.edit_focus = Focus.name := by
      rw [hstep]
      exact hf
    have hrow2 : (handle_edit_input s k).1.cursor_row.toNat < (handle_edit_input s k).1.tasks.length := by
      rw [hstep]
      unfold mutateCurTask
      dsimp only
      rw [length_modifyAt]
      exact hrow
    have hname2 : nameAt (handle_edit_input s k).1 =
        if (nameAt s).length < 15 then nameAt s ++ [k] else nameAt s := by
      rw [hstep, nameAt_mutate _ _ hrow]
      unfold nameStep nameAt
      rw [if_neg hnb]
      split_ifs with h15 <;> rfl
    have hproc : processKeys s (k :: ks) = processKeys (handle_edit_input s k).1 ks := rfl
    rcases Nat.lt_or_ge (nameAt s).length 15 with hlt | hge
    · have hname2p : nameAt (handle_edit_input s k).1 = nameAt s ++ [k] := by
        rw [hname2, if_pos hlt]
      have hlen2 : (nameAt (handle_edit_input s k).1).length ≤ 15 := by
        rw [hname2p, List.length_append]
        simp only [List.length_singleton]
        omega
      have hih := ih (handle_edit_input s k).1 hf2 hrow2
        (fun k2 h2 => hks k2 (List.mem_cons_of_mem _ h2)) hlen2
      rw [hproc, hih, hname2p]
      obtain ⟨m, hm⟩ : ∃ m, 15 - (nameAt s).length = m + 1 :=
        ⟨15 - (nameAt s).length - 1, by omega⟩
      have hm2 : 15 - (nameAt s ++ [k]).length = m := by
        rw [List.length_append]
        simp only [List.length_singleton]
        omega
      rw [hm, hm2, List.take_succ_cons]
      simp
    · have hname2e : nameAt (handle_edit_input s k).1 = nameAt s := by
        rw [hname2, if_neg (by omega)]
      have hih := ih (handle_edit_input s k).1 hf2 hrow2
        (fun k2 h2 => hks k2 (List.mem_cons_of_mem _ h2)) (by rw [hname2e]; omega)
      have h15 : (nameAt s).length = 15 := by omega
      rw [hproc, hih, hname2e, h15]
      simp

/-- Claim C6: with focus on the name, name lengths never exceed 15 under any
sequence of printable and backspace keys; a printable key is appended only
while the length is below 15 and ignored otherwise, so typing into an empty
name stores the first 15 typed codes; backspace drops the last code and is a
no-op on an empty name. -/
theorem C6_name_rules (s : AppState) (ks : List Int) (k : Int)
    (hf : s.edit_focus = Focus.name)
    (hrow : s.cursor_row.toNat < s.tasks.length) :
    ((∀ k2 ∈ ks, nameEditKey k2) → (∀ t ∈ s.tasks, t.name.length ≤ 15) →
      ∀ t ∈ (processKeys s ks).tasks, t.name.length ≤ 15) ∧
    (32 ≤ k → k ≤ 126 →
      nameAt (handle_edit_input s k).1 =
        if (nameAt s).length < 15 then nameAt s ++ [k] else nameAt s) ∧
    ((∀ k2 ∈ ks, 32 ≤ k2 ∧ k2 ≤ 126) → nameAt s = [] →
      nameAt (processKeys s ks) = ks.take 15) ∧
    ((k = KEY_BACKSPACE ∨ k = 127 ∨ k = 8) →
      nameAt (handle_edit_input s k).1 = (nameAt s).dropLast) := by
  refine ⟨name_len_invariant ks s hf, ?_, ?_, ?_⟩
  · intro h1 h2
    have hnb : ¬ (k = KEY_BACKSPACE ∨ k = 127 ∨ k = 8) := by
      unfold KEY_BACKSPACE
      omega
    have hstep := handle_name_key s k hf (Or.inr (Or.inr (Or.inr ⟨h1, h2⟩)))
    rw [hstep, nameAt_mutate _ _ hrow]
    unfold nameStep nameAt
    rw [if_neg hnb]
    split_ifs with h15 <;> rfl
  · intro hks hempty
    have h := typing_appends ks s hf hrow hks (by rw [hempty]; simp)
    rw [h, hempty]
    simp
  · intro hb
    have hstep := handle_name_key s k hf (by unfold nameEditKey; tauto)
    rw [hstep, nameAt_mutate _ _ hrow]
    unfold nameStep nameAt
    rw [if_pos hb]

/-- Witness for C6: typing 20 printable codes into the empty first task of
the initial state stores exactly the first 15 of them. -/
theorem C6_name_rules_witness :
    nameAt (processKeys initState
      [65, 66, 67, 68, 69, 70, 71, 72, 73, 74, 75, 76, 77, 78, 79, 80, 81, 82, 83, 84]) =
    [65, 66, 67, 68, 69, 70, 71, 72, 73, 74, 75, 76, 77, 78, 79] := by
  have h := (C6_name_rules initState
      [65, 66, 67, 68, 69, 70, 71, 72, 73, 74, 75, 76, 77, 78, 79, 80, 81, 82, 83, 84]
      0 rfl (by decide)).2.2.1 (by decide) rfl
  rw [h]
  rfl

/-- The keys handle_edit_input reacts to in a given focus: exactly the
dispatch conditions of its branches. -/
def recognizedKey (f : Focus) (k : Int) : Bool :=
  k == KEY_F5 || k == 9 || k == KEY_UP || k == KEY_DOWN ||
  (match f with
   | Focus.name =>
     k == 10 || k == KEY_ENTER || k == 13 || k == KEY_BACKSPACE || k == 127 || k == 8 ||
     (decide (32 ≤ k) && decide (k ≤ 126))
   | Focus.slots =>
     k == KEY_LEFT || k == KEY_RIGHT || k == 32 || k == 114 || k == 82)

/-- Counterexample to claim C9 as stated: its examples count Space with
focus on the name among the ignored keys, but Space is the printable code
32 and is appended to the focused name, changing the state. -/
theorem C9_counterexample :
    initState.edit_focus = Focus.name ∧
    (handle_edit_input initState 32).1 ≠ initState := by
  decide

/-- Claim C9 as amended: a key outside the recognized set of the current
focus (for name focus: Tab, Up, Down, Enter, Backspace, printable
characters — Space and R included — and F5; for slots focus: Tab, Up, Down,
Left, Right, Space, r, R and F5) leaves the state unchanged and signals
false; the begin-run signal is true exactly for F5. -/
theorem C9_unrecognized_ignored (s : AppState) (k : Int) :
    (recognizedKey s.edit_focus k = false → handle_edit_input s k = (s, false)) ∧
    ((handle_edit_input s k).2 = true ↔ k = KEY_F5) := by
  constructor
  · intro h
    unfold recognizedKey KEY_F5 KEY_UP KEY_DOWN KEY_ENTER KEY_BACKSPACE KEY_LEFT KEY_RIGHT at h
    unfold handle_edit_input KEY_F5 KEY_UP KEY_DOWN KEY_ENTER KEY_BACKSPACE KEY_LEFT KEY_RIGHT
    cases hf : s.edit_focus with
    | name =>
      rw [hf] at h
      simp only [Bool.or_eq_false_iff, beq_eq_false_iff_ne, ne_eq,
                 Bool.and_eq_false_iff, decide_eq_false_iff_not] at h
      rw [if_neg (by omega), if_neg (by omega), if_neg (by omega), if_neg (by omega),
          if_pos rfl, if_neg (by omega), if_neg (by omega), if_neg (by omega)]
    | slots =>
      rw [hf] at h
      simp only [Bool.or_eq_false_iff, beq_eq_false_iff_ne, ne_eq,
                 Bool.and_eq_false_iff, decide_eq_false_iff_not] at h
      rw [if_neg (by omega), if_neg (by omega), if_neg (by omega), if_neg (by omega),
          if_neg (by decide), if_neg (by omega), if_neg (by omega), if_neg (by omega),
          if_neg (by omega)]
  · constructor
    · intro h2
      by_cases hk : k = KEY_F5
      · exact hk
      · exfalso
        have hfalse : (handle_edit_input s k).2 = false := by
          unfold handle_edit_input
          rw [if_neg hk]
          split_ifs <;> rfl
        rw [hfalse] at h2
        cases h2
    · intro hk
      subst hk
      unfold handle_edit_input
      rw [if_pos rfl]

/-- Witness for C9: key code 1000 is recognized in neither focus and leaves
the initial state unchanged with a false signal; a non-F5 key never starts
the run. -/
theorem C9_unrecognized_ignored_witness :
    handle_edit_input initState 1000 = (initState, false) ∧
    ((handle_edit_input initState 300).2 = true ↔ (300 : Int) = KEY_F5) :=
  ⟨(C9_unrecognized_ignored initState 1000).1 (by decide),
   (C9_unrecognized_ignored initState 300).2⟩

end Schedule
